import Mathlib

/-!
Verification of the PersonaForge plan-to-execution pipeline.

This file gives a shallow embedding of the security validator
(`apps/desktop/electron/services/security.ts`), the executor safety layer and
agent scheduler (`services/executors/executor-safety.ts`), and the main
executor (`services/executors/executor-main.ts`), together with theorems
settling the specification claims about them.

Modelling conventions:
* JavaScript `undefined`-able fields become `Option`; JS truthiness of a
  string field (`!x` is true for `undefined` and `""`) is `strFalsy`.
* `Date.now()` timestamps are threaded explicitly as `Int` parameters.
* The SHA-256 function is kept as an explicit parameter `H : String → String`
  of the audit-log operations; everything else (including the exact string
  that is hashed) is computed.
* Regular-expression tests over the fixed pattern list are implemented by a
  small literal/whitespace token matcher equivalent to those patterns.
* `Promise`-based step execution becomes `Except String String`; the result
  array written by index becomes a `List (Option AgentResult)` updated with
  `List.set` (each slot is written at most once, so the sequentialisation is
  faithful); wall-clock `duration` fields are not modelled.
-/

/-! ## Shared data model (security.ts lines 21-38) -/

inductive RiskLevel
  | low
  | medium
  | high
deriving DecidableEq

inductive Operation
  | OpenApp
  | Navigate
  | Type
  | Click
  | Shortcut
  | SystemSetting
  | Message
  | Confirm
  | Wait
deriving DecidableEq

structure TaskStep where
  op : Operation
  target : Option String := none
  app : Option String := none
  text : Option String := none
  keys : Option (List String) := none
  value : Option String := none
deriving DecidableEq

/-- Plan shape as consumed by `validateTaskPlan`; `task` and `steps` are
`Option` because the validator defensively checks for missing fields of the
incoming JSON object. -/
structure TaskPlan where
  task : Option String
  risk : RiskLevel
  steps : Option (List TaskStep)
deriving DecidableEq

structure SecurityConfig where
  requireApprovalForMedium : Bool
  requireApprovalForHigh : Bool
  requirePinForHigh : Bool
  maxActionsPerMinute : Nat
  enableWhitelist : Bool
  enableBlacklist : Bool
  enableAuditLog : Bool
  killSwitchEnabled : Bool
deriving DecidableEq

def DEFAULT_CONFIG : SecurityConfig :=
  { requireApprovalForMedium := true
    requireApprovalForHigh := true
    requirePinForHigh := false
    maxActionsPerMinute := 10
    enableWhitelist := true
    enableBlacklist := true
    enableAuditLog := true
    killSwitchEnabled := true }

structure SecurityResult where
  allowed : Bool
  reason : Option String := none
  requiresApproval : Option Bool := none
  requiresPin : Option Bool := none
deriving DecidableEq

/-- Mutable fields of the `SecurityService` class instance. -/
structure SecurityState where
  config : SecurityConfig
  actionHistory : List (Int × String)
  killSwitchActive : Bool
  lastAuditHash : Option String
  whitelist : List String
  blacklist : List String
deriving DecidableEq

/-- A freshly constructed service with the default configuration and no
whitelist/blacklist files on disk. -/
def freshSecurityState : SecurityState :=
  { config := DEFAULT_CONFIG
    actionHistory := []
    killSwitchActive := false
    lastAuditHash := none
    whitelist := []
    blacklist := [] }

/-! ## String helpers mirroring the JS operations used by the validators -/

/-- JS falsiness of an optional string field: `undefined` or `""`. -/
def strFalsy : Option String → Bool
  | none => true
  | some s => s = ""

def wsChar (c : Char) : Bool :=
  c = ' ' || c = '\t' || c = '\n' || c = '\r' || c = '\x0b' || c = '\x0c'

def lowerStr (s : String) : String := String.mk (s.toList.map Char.toLower)

/-- JS `String.prototype.trim`: strip leading and trailing whitespace. -/
def jsTrim (s : String) : String :=
  String.mk (((s.toList.dropWhile (fun c => wsChar c)).reverse.dropWhile
    (fun c => wsChar c)).reverse)

/-- `needle` occurs at the head of `hay` (exact characters). -/
def leadsWith : List Char → List Char → Bool
  | [], _ => true
  | _ :: _, [] => false
  | p :: ps, c :: cs => p = c && leadsWith ps cs

def hasSubAux (needle : List Char) : List Char → Bool
  | [] => leadsWith needle []
  | c :: cs => leadsWith needle (c :: cs) || hasSubAux needle cs

/-- JS `haystack.includes(needle)`. -/
def hasSub (hay needle : String) : Bool := hasSubAux needle.toList hay.toList

/-- JS `str.includes(singleChar)`. -/
def hasChar (s : String) (c : Char) : Bool := s.toList.contains c

/-! ## The fixed dangerous-pattern list (security.ts lines 95-105)

Each regex is a sequence of case-insensitive literals and `\s+` gaps; we
model exactly that token structure. -/

inductive PatTok
  | lit (s : String)
  | ws
deriving DecidableEq

/-- Consume a case-insensitive literal from the head of the text. -/
def dropLit : List Char → List Char → Option (List Char)
  | [], cs => some cs
  | _ :: _, [] => none
  | p :: ps, c :: cs => if p.toLower = c.toLower then dropLit ps cs else none

/-- Count and drop leading whitespace. -/
def skipWs : List Char → Nat × List Char
  | [] => (0, [])
  | c :: cs =>
    if wsChar c then
      let r := skipWs cs
      (r.1 + 1, r.2)
    else (0, c :: cs)

/-- Match the token sequence at the head of the text.  Greedy whitespace
consumption is exact here because no literal in the pattern list begins with
a whitespace character. -/
def matchToks : List PatTok → List Char → Bool
  | [], _ => true
  | PatTok.lit s :: rest, cs =>
    match dropLit s.toList cs with
    | none => false
    | some cs' => matchToks rest cs'
  | PatTok.ws :: rest, cs =>
    let r := skipWs cs
    decide (1 ≤ r.1) && matchToks rest r.2

def testPatAux (toks : List PatTok) : List Char → Bool
  | [] => matchToks toks []
  | c :: cs => matchToks toks (c :: cs) || testPatAux toks cs

/-- JS `pattern.test(s)`: the token sequence matches at some position. -/
def testPat (toks : List PatTok) (s : String) : Bool := testPatAux toks s.toList

/-- The eight `DANGEROUS_PATTERNS`, each with the display string used in
rejection reasons. -/
def DANGEROUS_PATTERNS : List (List PatTok × String) :=
  [ ([PatTok.lit "rm", PatTok.ws, PatTok.lit "-rf"], "/rm\\s+-rf/i")
  , ([PatTok.lit "del", PatTok.ws, PatTok.lit "/s"], "/del\\s+\\/s/i")
  , ([PatTok.lit "format", PatTok.ws], "/format\\s+/i")
  , ([PatTok.lit "shutdown"], "/shutdown/i")
  , ([PatTok.lit "restart"], "/restart/i")
  , ([PatTok.lit "reg", PatTok.ws, PatTok.lit "delete"], "/reg\\s+delete/i")
  , ([PatTok.lit "net", PatTok.ws, PatTok.lit "user"], "/net\\s+user/i")
  , ([PatTok.lit "wmic", PatTok.ws, PatTok.lit "process"], "/wmic\\s+process/i") ]

/-- First dangerous pattern matching the text, with its display string. -/
def firstPatternHit (s : String) : Option String :=
  (DANGEROUS_PATTERNS.find? (fun p => testPat p.1 s)).map (·.2)

def DANGEROUS_SETTINGS : List String :=
  [ "system.shutdown"
  , "system.restart"
  , "network.firewall.disable"
  , "security.antivirus.disable"
  , "user.delete"
  , "system.format" ]

def SAFE_APPS : List String :=
  [ "ms-settings:", "notepad", "calc", "mspaint", "explorer" ]

def opName : Operation → String
  | Operation.OpenApp => "OpenApp"
  | Operation.Navigate => "Navigate"
  | Operation.Type => "Type"
  | Operation.Click => "Click"
  | Operation.Shortcut => "Shortcut"
  | Operation.SystemSetting => "SystemSetting"
  | Operation.Message => "Message"
  | Operation.Confirm => "Confirm"
  | Operation.Wait => "Wait"

def SAFE_OPERATIONS : List Operation := [Operation.Confirm, Operation.Wait]

/-! ## Per-operation validators (security.ts lines 259-408) -/

def backtickChar : Char := Char.ofNat 96

def validateOpenApp (step : TaskStep) : SecurityResult :=
  if strFalsy step.app then
    { allowed := false, reason := some "OpenApp requires an app name" }
  else
    let appName := jsTrim (lowerStr (step.app.getD ""))
    if hasChar appName ';' || hasChar appName '|' || hasChar appName '&' ||
        hasChar appName backtickChar then
      { allowed := false
        reason := some "Invalid characters in app name (potential command injection)" }
    else if SAFE_APPS.contains appName then
      { allowed := true }
    else
      { allowed := true, requiresApproval := some true }

def validateSystemSetting (step : TaskStep) : SecurityResult :=
  if strFalsy step.target then
    { allowed := false, reason := some "SystemSetting requires a target" }
  else
    let target := lowerStr (step.target.getD "")
    if DANGEROUS_SETTINGS.any (fun d => hasSub target (lowerStr d)) then
      { allowed := false
        reason := some ("Dangerous system setting blocked: " ++ step.target.getD "") }
    else if !strFalsy step.value &&
        (hasChar (step.value.getD "") ';' || hasChar (step.value.getD "") '|' ||
          hasChar (step.value.getD "") '&') then
      { allowed := false
        reason := some "Invalid characters in setting value (potential command injection)" }
    else
      { allowed := true, requiresApproval := some true }

def validateMessage (step : TaskStep) : SecurityResult :=
  if strFalsy step.target || strFalsy step.text then
    { allowed := false, reason := some "Message requires both target and text" }
  else if 1000 < (step.text.getD "").length then
    { allowed := false, reason := some "Message text too long (max 1000 characters)" }
  else
    -- source comment: "Messages are always high risk - require approval"
    { allowed := true, requiresApproval := some true }

def validateType (step : TaskStep) : SecurityResult :=
  if strFalsy step.text then
    { allowed := false, reason := some "Type operation requires text" }
  else if (DANGEROUS_PATTERNS.find? (fun p => testPat p.1 (step.text.getD ""))).isSome then
    { allowed := false, reason := some "Dangerous command pattern detected in typed text" }
  else
    { allowed := true, requiresApproval := some (decide (50 < (step.text.getD "").length)) }

def validateShortcut (step : TaskStep) : SecurityResult :=
  match step.keys with
  | none =>
    { allowed := false, reason := some "Shortcut requires an array of keys" }
  | some ks =>
    let keys := ks.map lowerStr
    if keys.contains "alt" && keys.contains "f4" then
      { allowed := false, reason := some "Alt+F4 shortcut is blocked for security" }
    else if keys.contains "ctrl" && keys.contains "shift" && keys.contains "esc" then
      { allowed := false, reason := some "Task Manager shortcut is blocked for security" }
    else
      { allowed := true, requiresApproval := some true }

/-- `validateStep` (security.ts lines 188-257).  The incoming `op` is already
one of the nine declared operation strings, so the `typeof`/unknown-operation
guards of the source are unreachable in this model. -/
def validateStep (st : SecurityState) (step : TaskStep) (userInput : String) :
    SecurityResult :=
  match firstPatternHit userInput with
  | some pat =>
    { allowed := false, reason := some ("Dangerous command pattern detected: " ++ pat) }
  | none =>
    if st.config.enableBlacklist && st.blacklist.contains (opName step.op) then
      { allowed := false
        reason := some ("Operation \"" ++ opName step.op ++ "\" is blacklisted") }
    else if st.config.enableWhitelist && !SAFE_OPERATIONS.contains step.op &&
        (decide (1 ≤ st.whitelist.length) && !st.whitelist.contains (opName step.op)) then
      { allowed := false
        reason := some ("Operation \"" ++ opName step.op ++ "\" is not whitelisted") }
    else
      match step.op with
      | Operation.OpenApp => validateOpenApp step
      | Operation.SystemSetting => validateSystemSetting step
      | Operation.Message => validateMessage step
      | Operation.Type => validateType step
      | Operation.Shortcut => validateShortcut step
      | Operation.Navigate => { allowed := true }
      | Operation.Click => { allowed := true }
      | Operation.Confirm => { allowed := true }
      | Operation.Wait => { allowed := true }

/-! ## Rate limiter (security.ts lines 410-441) -/

def checkRateLimit (st : SecurityState) (now : Int) : SecurityResult × SecurityState :=
  let oneMinuteAgo := now - 60000
  let hist := st.actionHistory.filter (fun e => oneMinuteAgo < e.1)
  let st' := { st with actionHistory := hist }
  if st.config.maxActionsPerMinute ≤ hist.length then
    ({ allowed := false
       reason := some ("Rate limit exceeded: " ++ toString st.config.maxActionsPerMinute ++
         " actions per minute") }, st')
  else
    ({ allowed := true }, st')

def recordAction (st : SecurityState) (now : Int) (action : String) : SecurityState :=
  { st with actionHistory := st.actionHistory ++ [(now, action)] }

/-! ## Plan validation (security.ts lines 140-186) -/

/-- The `for (const step of plan.steps)` loop: result of the first step whose
validation is not allowed, if any. -/
def firstStepFailure (st : SecurityState) (userInput : String) :
    List TaskStep → Option SecurityResult
  | [] => none
  | step :: rest =>
    let r := validateStep st step userInput
    if r.allowed then firstStepFailure st userInput rest else some r

def validateTaskPlan (st : SecurityState) (now : Int) (plan : TaskPlan)
    (userInput : String) : SecurityResult × SecurityState :=
  if st.killSwitchActive then
    ({ allowed := false
       reason := some "Kill switch is active. All actions are blocked." }, st)
  else if strFalsy plan.task || decide (plan.steps = none) then
    ({ allowed := false, reason := some "Invalid task plan structure" }, st)
  else
    let rl := checkRateLimit st now
    if !rl.1.allowed then rl
    else
      match firstStepFailure rl.2 userInput (plan.steps.getD []) with
      | some r => (r, rl.2)
      | none =>
        ({ allowed := true
           requiresApproval := some
             ((plan.risk = RiskLevel.medium && st.config.requireApprovalForMedium) ||
              (plan.risk = RiskLevel.high && st.config.requireApprovalForHigh))
           requiresPin := some
             (plan.risk = RiskLevel.high && st.config.requirePinForHigh) }, rl.2)

/-! ## Audit log (security.ts lines 443-481)

`JSON.stringify` over the object literals is modelled by a small JSON
serializer; `undefined` fields are omitted, matching `JSON.stringify`.
Field order follows the declaration order of the TypeScript interfaces. -/

def riskName : RiskLevel → String
  | RiskLevel.low => "low"
  | RiskLevel.medium => "medium"
  | RiskLevel.high => "high"

def jsonEscChar (c : Char) : String :=
  if c = '\\' then "\\\\" else if c = '"' then "\\\"" else String.singleton c

def jsonEsc (s : String) : String := String.join (s.toList.map jsonEscChar)

def jsonStr (s : String) : String := "\"" ++ jsonEsc s ++ "\""

/-- A JSON object from named fields; `none` fields are omitted. -/
def jsonObj (fields : List (String × Option String)) : String :=
  "\x7b" ++
    String.intercalate ","
      (fields.filterMap (fun f => f.2.map (fun v => jsonStr f.1 ++ ":" ++ v))) ++
  "\x7d"

def jsonArr (xs : List String) : String := "[" ++ String.intercalate "," xs ++ "]"

def jsonOfStep (s : TaskStep) : String :=
  jsonObj
    [ ("op", some (jsonStr (opName s.op)))
    , ("target", s.target.map jsonStr)
    , ("app", s.app.map jsonStr)
    , ("text", s.text.map jsonStr)
    , ("keys", s.keys.map (fun ks => jsonArr (ks.map jsonStr)))
    , ("value", s.value.map jsonStr) ]

def jsonOfPlan (p : TaskPlan) : String :=
  jsonObj
    [ ("task", p.task.map jsonStr)
    , ("risk", some (jsonStr (riskName p.risk)))
    , ("steps", p.steps.map (fun ss => jsonArr (ss.map jsonOfStep))) ]

/-- The exact string hashed by `generateHash`:
`JSON.stringify(\x7b plan, userInput, timestamp: Date.now() \x7d)`. -/
def serializeHashData (plan : TaskPlan) (userInput : String) (now : Int) : String :=
  jsonObj
    [ ("plan", some (jsonOfPlan plan))
    , ("userInput", some (jsonStr userInput))
    , ("timestamp", some (toString now)) ]

def generateHash (H : String → String) (plan : TaskPlan) (userInput : String)
    (now : Int) : String :=
  H (serializeHashData plan userInput now)

structure AuditLogEntry where
  timestamp : Int
  action : Option String
  risk : RiskLevel
  userInput : String
  plan : TaskPlan
  approved : Bool
  executed : Bool
  error : Option String
  hash : String
  prevHash : Option String
deriving DecidableEq

/-- `logAction`: append one entry to the audit log (the `.jsonl` file is the
`List AuditLogEntry`).  Both `Date.now()` calls of one append are modelled as
the same instant `now`. -/
def logAction (H : String → String) (st : SecurityState) (log : List AuditLogEntry)
    (now : Int) (userInput : String) (plan : TaskPlan) (approved executed : Bool)
    (error : Option String) : SecurityState × List AuditLogEntry :=
  if !st.config.enableAuditLog then (st, log)
  else
    let entry : AuditLogEntry :=
      { timestamp := now
        action := plan.task
        risk := plan.risk
        userInput := userInput
        plan := plan
        approved := approved
        executed := executed
        error := error
        hash := generateHash H plan userInput now
        prevHash := st.lastAuditHash }
    ({ st with lastAuditHash := some entry.hash }, log ++ [entry])

/-- Modelled from the spec: the hash input the specification prescribes — "a
canonical serialization of the entry's fields" excluding `hash`, "together
with the previous entry's hash (or a fixed seed if none)" (seed `"0"`).
This is the quantity an independent reader would recompute from a stored
record and its `previousHash`. -/
def specAuditSerialize (e : AuditLogEntry) : String :=
  jsonObj
    [ ("timestamp", some (toString e.timestamp))
    , ("action", e.action.map jsonStr)
    , ("risk", some (jsonStr (riskName e.risk)))
    , ("userInput", some (jsonStr e.userInput))
    , ("plan", some (jsonOfPlan e.plan))
    , ("approved", some (if e.approved then "true" else "false"))
    , ("executed", some (if e.executed then "true" else "false"))
    , ("error", e.error.map jsonStr)
    , ("previousHash", some (jsonStr (e.prevHash.getD "0"))) ]

/-! ## Executor safety layer (executor-safety.ts lines 12-232) -/

structure SafetyCheckResult where
  safe : Bool
  risk : RiskLevel
  warnings : List String
  requiresConfirmation : Bool
deriving DecidableEq

def strStarts (s pre : String) : Bool := leadsWith pre.toList s.toList

def isURL (str : String) : Bool :=
  strStarts str "http://" || strStarts str "https://" ||
    hasSub str "://" || hasSub str "www."

def trustedDomains : List String :=
  [ "google.com", "youtube.com", "microsoft.com", "github.com",
    "stackoverflow.com", "wikipedia.org", "reddit.com", "twitter.com",
    "linkedin.com", "amazon.com" ]

def isTrustedDomain (url : String) : Bool :=
  trustedDomains.any (fun d => hasSub url d)

def checkStepSafety (step : TaskStep) : SafetyCheckResult :=
  let wr : List String × RiskLevel :=
    match step.op with
    | Operation.OpenApp =>
      let app := lowerStr (step.app.getD "")
      if hasSub app "regedit" || hasSub app "registry" then
        (["⚠️ Opening Registry Editor can be dangerous"], RiskLevel.high)
      else if hasSub app "cmd" || hasSub app "powershell" || hasSub app "terminal" then
        (["⚠️ Opening command-line tools"], RiskLevel.medium)
      else if hasSub app "taskmgr" || hasSub app "services" then
        (["⚠️ Opening system management tools"], RiskLevel.medium)
      else if isURL app then
        if !hasSub app "http://localhost" && !isTrustedDomain app then
          (["ℹ️ Opening external URL: " ++ app], RiskLevel.low)
        else ([], RiskLevel.low)
      else ([], RiskLevel.low)
    | Operation.SystemSetting =>
      (["ℹ️ Changing system setting: " ++ step.target.getD "undefined"], RiskLevel.medium)
    | Operation.Type =>
      if 500 < (step.text.getD "").length then
        (["⚠️ Typing long text (>500 chars)"], RiskLevel.medium)
      else ([], RiskLevel.low)
    | Operation.Shortcut =>
      let keys := step.keys.getD []
      let w1r1 : List String × RiskLevel :=
        if keys.any (fun k => lowerStr k = "delete" || lowerStr k = "del") then
          (["⚠️ Using Delete key shortcut"], RiskLevel.medium)
        else ([], RiskLevel.low)
      if keys.contains "Alt" && keys.contains "F4" then
        (w1r1.1 ++ ["ℹ️ Alt+F4 will close active window"], RiskLevel.low)
      else w1r1
    | Operation.Message =>
      (["⚠️ Sending message to: " ++ step.target.getD "undefined"], RiskLevel.high)
    | Operation.Navigate =>
      (["ℹ️ UI automation (Navigate/Click) is experimental"], RiskLevel.medium)
    | Operation.Click =>
      (["ℹ️ UI automation (Navigate/Click) is experimental"], RiskLevel.medium)
    | Operation.Wait => ([], RiskLevel.low)
    | Operation.Confirm => ([], RiskLevel.low)
  { safe := decide (wr.2 ≠ RiskLevel.high)
    risk := wr.2
    warnings := wr.1
    requiresConfirmation := decide (wr.2 = RiskLevel.high) }

/-- Executor-side plan shape (`nlp-gemini.ts` `TaskPlan`): all fields present. -/
structure ExecPlan where
  task : String
  risk : RiskLevel
  steps : List TaskStep
deriving DecidableEq

/-- One loop iteration of `checkTaskSafety`: accumulator is
(highestRisk, requiresConfirmation, warnings). -/
def taskSafetyFold (acc : RiskLevel × Bool × List String) (step : TaskStep) :
    RiskLevel × Bool × List String :=
  let sc := checkStepSafety step
  let hr_rc : RiskLevel × Bool :=
    if sc.risk = RiskLevel.high then (RiskLevel.high, true)
    else if sc.risk = RiskLevel.medium && acc.1 = RiskLevel.low then
      (RiskLevel.medium, acc.2.1)
    else (acc.1, acc.2.1)
  (hr_rc.1, hr_rc.2, acc.2.2 ++ sc.warnings)

def checkTaskSafety (plan : ExecPlan) : SafetyCheckResult :=
  let acc := plan.steps.foldl taskSafetyFold (RiskLevel.low, false, [])
  let final : RiskLevel × Bool :=
    if plan.risk = RiskLevel.high then (RiskLevel.high, true) else (acc.1, acc.2.1)
  { safe := decide (final.1 ≠ RiskLevel.high) || final.2
    risk := final.1
    warnings := acc.2.2
    requiresConfirmation := final.2 }

/-! ## Executor-side step parameter validation (executor-safety.ts 185-232) -/

def digitsVal (cs : List Char) : Option Nat :=
  let ds := cs.takeWhile Char.isDigit
  if ds.isEmpty then none
  else some (ds.foldl (fun a c => a * 10 + (c.toNat - 48)) 0)

/-- JS `parseInt`: leading whitespace, optional sign, leading digits;
`none` models `NaN`. -/
def parseIntJS (s : String) : Option Int :=
  let cs := s.toList.dropWhile (fun c => wsChar c)
  match cs with
  | '-' :: rest => (digitsVal rest).map (fun n => -(n : Int))
  | '+' :: rest => (digitsVal rest).map (fun n => (n : Int))
  | rest => (digitsVal rest).map (fun n => (n : Int))

/-- Executor-side `validateStep`; `some msg` is `\x7b valid: false, error: msg \x7d`. -/
def stepValidityError (step : TaskStep) : Option String :=
  match step.op with
  | Operation.OpenApp =>
    if strFalsy step.app || jsTrim (step.app.getD "") = "" then
      some "OpenApp requires 'app' parameter"
    else none
  | Operation.SystemSetting =>
    if strFalsy step.target || strFalsy step.value then
      some "SystemSetting requires 'target' and 'value' parameters"
    else if !hasChar (step.target.getD "") '.' then
      some "SystemSetting target must be in format 'category.setting'"
    else none
  | Operation.Type =>
    if strFalsy step.text then some "Type requires 'text' parameter" else none
  | Operation.Shortcut =>
    match step.keys with
    | none => some "Shortcut requires 'keys' array parameter"
    | some ks =>
      if ks.isEmpty then some "Shortcut requires 'keys' array parameter" else none
  | Operation.Message =>
    if strFalsy step.target || strFalsy step.text then
      some "Message requires 'target' and 'text' parameters"
    else none
  | Operation.Wait =>
    if !strFalsy step.value then
      match parseIntJS (step.value.getD "") with
      | none => some "Wait value must be between 0 and 30000ms"
      | some ms =>
        if ms < 0 || 30000 < ms then
          some "Wait value must be between 0 and 30000ms"
        else none
    else none
  | _ => none

/-! ## Agent system (executor-safety.ts lines 234-413) -/

structure ExecutionTask where
  step : TaskStep
  index : Nat
  canRunInParallel : Bool
  dependencies : List Nat
deriving DecidableEq

/-- Parallel-safety of one step given its predecessor (the `switch` of
`createExecutionPlan`). -/
def stepCanPar (prev : Option TaskStep) (s : TaskStep) : Bool :=
  match s.op with
  | Operation.OpenApp =>
    match prev with
    | none => true
    | some p => decide (p.op ≠ Operation.Wait)
  | Operation.SystemSetting => true
  | _ => false

/-- Dependency list of the step at position `i` (the `switch` of
`createExecutionPlan`): everything except `OpenApp`/`SystemSetting` depends
on its immediate predecessor. -/
def stepDeps (i : Nat) (s : TaskStep) : List Nat :=
  match s.op with
  | Operation.OpenApp => []
  | Operation.SystemSetting => []
  | _ => if 1 ≤ i then [i - 1] else []

def buildTasks : Option TaskStep → Nat → List TaskStep → List ExecutionTask
  | _, _, [] => []
  | prev, i, s :: rest =>
    { step := s, index := i, canRunInParallel := stepCanPar prev s,
      dependencies := stepDeps i s } :: buildTasks (some s) (i + 1) rest

def createExecutionPlan (steps : List TaskStep) : List ExecutionTask :=
  buildTasks none 0 steps

/-- One pass of the inner `for (const task of tasks)` loop of
`groupIntoBatches`: collect the current batch and the updated `completed`
set (a task counts as completed as soon as it is scheduled into the current
batch). -/
def batchPass : List ExecutionTask → List Nat → List ExecutionTask × List Nat
  | [], c => ([], c)
  | t :: rest, c =>
    if t.index ∈ c then batchPass rest c
    else if t.dependencies.all (fun d => decide (d ∈ c)) then
      if t.canRunInParallel then
        let r := batchPass rest (t.index :: c)
        (t :: r.1, r.2)
      else ([t], t.index :: c)
    else batchPass rest c

/-- The `while (completed.size < tasks.length)` loop, fuelled.  Every
productive iteration enlarges `completed` by at least one fresh index, so
`tasks.length + 1` units of fuel always reach the loop's own exit. -/
def groupAux : Nat → List ExecutionTask → List Nat → List (List ExecutionTask)
  | 0, _, _ => []
  | fuel + 1, tasks, c =>
    if c.length < tasks.length then
      if (batchPass tasks c).1.isEmpty then []
      else (batchPass tasks c).1 :: groupAux fuel tasks (batchPass tasks c).2
    else []

def groupIntoBatches (tasks : List ExecutionTask) : List (List ExecutionTask) :=
  groupAux (tasks.length + 1) tasks []

structure AgentResult where
  index : Nat
  success : Bool
  result : Option String
  error : Option String
deriving DecidableEq

def mkAgentResult (i : Nat) : Except String String → AgentResult
  | Except.ok s => { index := i, success := true, result := some s, error := none }
  | Except.error e => { index := i, success := false, result := none, error := some e }

/-- `results[task.index] = ...` for one task. -/
def setOutcome (f : TaskStep → Except String String)
    (results : List (Option AgentResult)) (t : ExecutionTask) :
    List (Option AgentResult) :=
  results.set t.index (some (mkAgentResult t.index (f t.step)))

/-- `executeWithAgents`: run every batch in order, every task of a batch
against the capability provider `f`, filling the result array by index.
The returned array has `tasks.length` slots; a slot never scheduled stays
`none` (JS `undefined`). -/
def executeWithAgents (tasks : List ExecutionTask)
    (f : TaskStep → Except String String) : List (Option AgentResult) :=
  (groupIntoBatches tasks).foldl
    (fun res batch => batch.foldl (setOutcome f) res)
    (List.replicate tasks.length none)

/-- The tasks handed to the capability provider, in dispatch order: one
invocation per task of each successive batch. -/
def dispatchedTasks (tasks : List ExecutionTask) : List ExecutionTask :=
  (groupIntoBatches tasks).flatten

/-! ## Main executor (executor-main.ts lines 14-93) -/

structure ExecutionResult where
  success : Bool
  completedSteps : Nat
  totalSteps : Nat
  results : List String
  warnings : Option (List String)
  error : Option String
deriving DecidableEq

/-- Result shape of the `catch` branch of `executePlan`. -/
def catchResult (msg : String) (n : Nat) : ExecutionResult :=
  { success := false, completedSteps := 0, totalSteps := n,
    results := ["✗ " ++ msg], warnings := none, error := some msg }

/-- Collapse the result array; `none` means some slot was never filled, in
which case reading `.success` of `undefined` throws (handled by the caller's
`catch`). -/
def seqOpts : List (Option AgentResult) → Option (List AgentResult)
  | [] => some []
  | none :: _ => none
  | some r :: rest => (seqOpts rest).map (r :: ·)

def executePlanMain (plan : ExecPlan) (f : TaskStep → Except String String) :
    ExecutionResult :=
  let n := plan.steps.length
  let safety := checkTaskSafety plan
  match plan.steps.findSome? stepValidityError with
  | some msg => catchResult msg n
  | none =>
    let tasks := createExecutionPlan plan.steps
    let agentResults := executeWithAgents tasks f
    match seqOpts agentResults with
    | none => catchResult "Cannot read properties of undefined (reading 'success')" n
    | some rs =>
      let results := rs.map (fun r =>
        if r.success then "✓ " ++ r.result.getD "undefined"
        else "✗ " ++ r.error.getD "undefined")
      let completed := (rs.filter (fun r => r.success)).length
      { success := decide (completed = n), completedSteps := completed,
        totalSteps := n, results := results, warnings := some safety.warnings,
        error := none }

/-! ## Secure execution coordinator (task-executor.ts, executor-backed class) -/

structure CoordResult where
  success : Bool
  error : Option String
  executedSteps : Nat
deriving DecidableEq

structure CoordOut where
  result : CoordResult
  state : SecurityState
  log : List AuditLogEntry
  invoked : List TaskStep
deriving DecidableEq

/-- Steps on which the capability provider is invoked when
`executePlanMain` runs a step list (empty when the pre-execution parameter
validation throws). -/
def planInvocations (steps : List TaskStep) : List TaskStep :=
  match steps.findSome? stepValidityError with
  | some _ => []
  | none => (dispatchedTasks (createExecutionPlan steps)).map (fun t => t.step)

/-- `SecureTaskExecutor.executePlan`: validate, gate on consent, record for
rate limiting, execute, audit-log.  `consentApproved` is the human decision
returned by the consent service; `invoked` is the trace of steps passed to
the capability provider. -/
def secureExecutePlan (H : String → String) (st : SecurityState)
    (log : List AuditLogEntry) (now : Int) (plan : TaskPlan) (userInput : String)
    (consentApproved : Bool) (f : TaskStep → Except String String) : CoordOut :=
  let v := validateTaskPlan st now plan userInput
  if !v.1.allowed then
    let l := logAction H v.2 log now userInput plan false false v.1.reason
    { result := { success := false
                  error := some (v.1.reason.getD "Plan validation failed")
                  executedSteps := 0 }
      state := l.1, log := l.2, invoked := [] }
  else if (v.1.requiresApproval.getD false || v.1.requiresPin.getD false) &&
      !consentApproved then
    let l := logAction H v.2 log now userInput plan false false
      (some "User denied consent")
    { result := { success := false, error := some "User denied consent"
                  executedSteps := 0 }
      state := l.1, log := l.2, invoked := [] }
  else
    let st3 := recordAction v.2 now (plan.task.getD "undefined")
    let er := executePlanMain
      { task := plan.task.getD "undefined", risk := plan.risk,
        steps := plan.steps.getD [] } f
    let l := logAction H st3 log now userInput plan true er.success er.error
    { result := { success := er.success, error := er.error
                  executedSteps := er.completedSteps }
      state := l.1, log := l.2, invoked := planInvocations (plan.steps.getD []) }

/-! ## Derived observations and auxiliary definitions used by the theorems -/

def exceptOk : Except String String → Bool
  | Except.ok _ => true
  | Except.error _ => false

/-- The per-step agent results in step order, starting at index `i`. -/
def agentsOf (f : TaskStep → Except String String) : Nat → List TaskStep → List AgentResult
  | _, [] => []
  | i, s :: rest => mkAgentResult i (f s) :: agentsOf f (i + 1) rest

/-- The filled result array in step order. -/
def outcomesOf (f : TaskStep → Except String String) (i : Nat) (steps : List TaskStep) :
    List (Option AgentResult) :=
  (agentsOf f i steps).map some

/-- `n` calls of `recordAction` with the same timestamp and label. -/
def recordRepeat : Nat → SecurityState → Int → String → SecurityState
  | 0, st, _, _ => st
  | n + 1, st, t, l => recordRepeat n (recordAction st t l) t l

/-! ## Concrete fixtures for the claims -/

def msgStep : TaskStep :=
  { op := Operation.Message, target := some "alice", text := some "hi" }

def openAppStep : TaskStep := { op := Operation.OpenApp, app := some "notepad" }

def waitStep : TaskStep := { op := Operation.Wait, value := some "500" }

def typeStep : TaskStep := { op := Operation.Type, text := some "hello world" }

def delShortcutStep : TaskStep :=
  { op := Operation.Shortcut, keys := some ["delete"] }

def brightnessStep : TaskStep :=
  { op := Operation.SystemSetting, target := some "display.brightness",
    value := some "30" }

def lowMsgPlan : TaskPlan :=
  { task := some "send a message", risk := RiskLevel.low, steps := some [msgStep] }

def lowShortcutPlan : TaskPlan :=
  { task := some "cleanup", risk := RiskLevel.low, steps := some [delShortcutStep] }

def lowShortcutExecPlan : ExecPlan :=
  { task := "cleanup", risk := RiskLevel.low, steps := [delShortcutStep] }

def emptyStepsPlan : TaskPlan :=
  { task := some "noop", risk := RiskLevel.low, steps := some [] }

def mediumWaitPlan : TaskPlan :=
  { task := some "pause", risk := RiskLevel.medium,
    steps := some [{ op := Operation.Wait }] }

def taskMissingPlan : TaskPlan :=
  { task := none, risk := RiskLevel.low, steps := some [{ op := Operation.Wait }] }

def killedState : SecurityState :=
  { freshSecurityState with killSwitchActive := true }

def limiterState (n : Nat) : SecurityState :=
  { freshSecurityState with config := { DEFAULT_CONFIG with maxActionsPerMinute := n } }

def failMsgExec : TaskStep → Except String String := fun s =>
  if s.op = Operation.Message then Except.error "send failed" else Except.ok "done"

def failTypeExec : TaskStep → Except String String := fun s =>
  if s.op = Operation.Type then Except.error "keyboard failure" else Except.ok "done"

def msgOpenExecPlan : ExecPlan :=
  { task := "notify", risk := RiskLevel.low, steps := [msgStep, openAppStep] }

theorem effective_risk_ignored :
    (checkTaskSafety lowShortcutExecPlan).risk = RiskLevel.medium ∧
    (validateTaskPlan freshSecurityState 1000 lowShortcutPlan "tidy up").1.allowed = true ∧
    (validateTaskPlan freshSecurityState 1000 lowShortcutPlan "tidy up").1.requiresApproval =
      some false := by decide

theorem message_approval_dropped :
    validateMessage msgStep = { allowed := true, requiresApproval := some true } ∧
    (validateTaskPlan freshSecurityState 1000 lowMsgPlan "hello").1 =
      { allowed := true, requiresApproval := some false, requiresPin := some false } := by
  decide

theorem empty_steps_accepted :
    (validateTaskPlan freshSecurityState 1000 emptyStepsPlan "ok").1 =
      { allowed := true, requiresApproval := some false, requiresPin := some false } := by
  decide

theorem wait_shares_wave_with_dependency :
    ((groupIntoBatches (createExecutionPlan [openAppStep, waitStep, typeStep])).map
      (fun b => b.map (fun t => t.index))) = [[0, 1], [2]] ∧
    (createExecutionPlan [openAppStep, waitStep, typeStep]).map
      (fun t => (t.canRunInParallel, t.dependencies)) =
      [(true, []), (false, [0]), (false, [1])] := by decide

theorem killswitch_scheduler_ignores :
    ¬ ∀ st : SecurityState, st.killSwitchActive = true →
      dispatchedTasks (createExecutionPlan [msgStep, openAppStep]) =
        ((groupIntoBatches (createExecutionPlan [msgStep, openAppStep])).take 1).flatten := by
  intro h
  have h2 := h killedState rfl
  revert h2
  decide

theorem killswitch_blocks (H : String → String) (st : SecurityState)
    (log : List AuditLogEntry) (now : Int) (plan : TaskPlan) (ui : String)
    (consent : Bool) (f : TaskStep → Except String String)
    (hks : st.killSwitchActive = true) :
    (validateTaskPlan st now plan ui).1 =
      { allowed := false
        reason := some "Kill switch is active. All actions are blocked." } ∧
    (secureExecutePlan H st log now plan ui consent f).invoked = [] ∧
    (secureExecutePlan H st log now plan ui consent f).result.executedSteps = 0 := by
  have hv : validateTaskPlan st now plan ui =
      ({ allowed := false
         reason := some "Kill switch is active. All actions are blocked." }, st) := by
    simp [validateTaskPlan, hks]
  refine ⟨by rw [hv], ?_, ?_⟩ <;> simp [secureExecutePlan, hv]

theorem killswitch_blocks_witness :
    killedState.killSwitchActive = true ∧
    ((validateTaskPlan killedState 0 lowMsgPlan "hi").1 =
      { allowed := false
        reason := some "Kill switch is active. All actions are blocked." } ∧
    (secureExecutePlan id killedState [] 0 lowMsgPlan "hi" true failMsgExec).invoked = [] ∧
    (secureExecutePlan id killedState [] 0 lowMsgPlan "hi" true failMsgExec).result.executedSteps = 0) :=
  ⟨rfl, killswitch_blocks id killedState [] 0 lowMsgPlan "hi" true failMsgExec rfl⟩

theorem audit_hash_composition (H : String → String) (st : SecurityState)
    (log : List AuditLogEntry) (now : Int) (ui : String) (plan : TaskPlan)
    (a e : Bool) (err : Option String) (hen : st.config.enableAuditLog = true) :
    (logAction H st log now ui plan a e err).2 =
      log ++ [{ timestamp := now, action := plan.task, risk := plan.risk,
                userInput := ui, plan := plan, approved := a, executed := e,
                error := err, hash := H (serializeHashData plan ui now),
                prevHash := st.lastAuditHash }] ∧
    (logAction H st log now ui plan a e err).1 =
      { st with lastAuditHash := some (H (serializeHashData plan ui now)) } := by
  simp [logAction, hen, generateHash]

theorem audit_hash_composition_witness :
    freshSecurityState.config.enableAuditLog = true ∧
    ((logAction id freshSecurityState [] 7 "hi" emptyStepsPlan true true none).2 =
      [] ++ [{ timestamp := 7, action := emptyStepsPlan.task, risk := emptyStepsPlan.risk,
               userInput := "hi", plan := emptyStepsPlan, approved := true, executed := true,
               error := none, hash := id (serializeHashData emptyStepsPlan "hi" 7),
               prevHash := freshSecurityState.lastAuditHash }] ∧
    (logAction id freshSecurityState [] 7 "hi" emptyStepsPlan true true none).1 =
      { freshSecurityState with
        lastAuditHash := some (id (serializeHashData emptyStepsPlan "hi" 7)) }) :=
  ⟨rfl, audit_hash_composition id freshSecurityState [] 7 "hi" emptyStepsPlan true true none rfl⟩

theorem audit_hash_not_spec_chained :
    ¬ ∀ H : String → String,
      ((logAction H freshSecurityState [] 7 "hi" emptyStepsPlan true true none).2.all
        (fun e => e.hash == H (specAuditSerialize e))) = true := by
  intro h
  have h2 := h id
  revert h2
  decide

theorem recordRepeat_config : ∀ (n : Nat) (st : SecurityState) (t : Int) (l : String),
    (recordRepeat n st t l).config = st.config := by
  intro n
  induction n with
  | zero => intro st t l; rfl
  | succ k ih => intro st t l; rw [recordRepeat, ih]; rfl

theorem recordRepeat_hist : ∀ (n : Nat) (st : SecurityState) (t : Int) (l : String),
    (recordRepeat n st t l).actionHistory =
      st.actionHistory ++ List.replicate n (t, l) := by
  intro n
  induction n with
  | zero => intro st t l; simp [recordRepeat]
  | succ k ih =>
    intro st t l
    rw [recordRepeat, ih]
    simp [recordAction, List.replicate_succ]

/-- Claim C8: filling the window rejects immediately; once every stamp is out
of the window the check allows again. -/
theorem rate_limit_window (N : Nat) (st : SecurityState) (t tLater : Int)
    (label : String) (hfresh : st.actionHistory = [])
    (hmax : st.config.maxActionsPerMinute = N) (hpos : 1 ≤ N)
    (hgap : t + 60000 ≤ tLater) :
    (checkRateLimit (recordRepeat N st t label) t).1 =
      { allowed := false
        reason := some ("Rate limit exceeded: " ++ toString N ++
          " actions per minute") } ∧
    (checkRateLimit (recordRepeat N st t label) tLater).1 = { allowed := true } := by
  have hh : (recordRepeat N st t label).actionHistory = List.replicate N (t, label) := by
    rw [recordRepeat_hist, hfresh]; rfl
  have hc : (recordRepeat N st t label).config = st.config := recordRepeat_config N st t label
  have h1 : t - 60000 < t := by omega
  have h2 : ¬ (tLater - 60000 < t) := by omega
  have h3 : ¬ (N ≤ 0) := by omega
  constructor
  · simp [checkRateLimit, hh, hc, hmax, List.filter_replicate, h1]
  · simp [checkRateLimit, hh, hc, hmax, List.filter_replicate, h2, h3]

theorem rate_limit_window_witness :
    (limiterState 2).actionHistory = [] ∧
    (limiterState 2).config.maxActionsPerMinute = 2 ∧
    ((checkRateLimit (recordRepeat 2 (limiterState 2) 1000 "a") 1000).1 =
      { allowed := false
        reason := some ("Rate limit exceeded: " ++ toString 2 ++
          " actions per minute") } ∧
    (checkRateLimit (recordRepeat 2 (limiterState 2) 1000 "a") 61000).1 =
      { allowed := true }) :=
  ⟨rfl, rfl, rate_limit_window 2 (limiterState 2) 1000 61000 "a" rfl rfl (by decide) (by decide)⟩

/-! ## Structure lemmas for the scheduler -/

theorem buildTasks_length : ∀ (prev : Option TaskStep) (i : Nat) (steps : List TaskStep),
    (buildTasks prev i steps).length = steps.length := by
  intro prev i steps
  induction steps generalizing prev i with
  | nil => rfl
  | cons s rest ih => simp [buildTasks, ih]

theorem buildTasks_map_step : ∀ (prev : Option TaskStep) (i : Nat) (steps : List TaskStep),
    (buildTasks prev i steps).map (fun t => t.step) = steps := by
  intro prev i steps
  induction steps generalizing prev i with
  | nil => rfl
  | cons s rest ih => simp [buildTasks, ih]

theorem buildTasks_take_index : ∀ (steps : List TaskStep) (prev : Option TaskStep)
    (i b : Nat) (t : ExecutionTask), t ∈ (buildTasks prev i steps).take b →
    t.index < i + b := by
  intro steps
  induction steps with
  | nil => intro prev i b t h; simp [buildTasks] at h
  | cons s rest ih =>
    intro prev i b t h
    cases b with
    | zero => simp at h
    | succ b' =>
      simp only [buildTasks, List.take_succ_cons, List.mem_cons] at h
      rcases h with h | h
      · subst h
        show i < i + (b' + 1)
        omega
      · have := ih (some s) (i + 1) b' t h
        omega

theorem stepDeps_lt (m : Nat) (s : TaskStep) : ∀ d ∈ stepDeps m s, d < m := by
  intro d h
  unfold stepDeps at h
  rcases hop : s.op <;> simp only [hop] at h
  all_goals
    first
      | exact absurd h (List.not_mem_nil d)
      | (by_cases hm : 1 ≤ m
         · rw [if_pos hm] at h
           have := List.mem_singleton.mp h
           omega
         · rw [if_neg hm] at h
           exact absurd h (List.not_mem_nil d))

theorem batchPass_skip : ∀ (A B : List ExecutionTask) (c : List Nat),
    (∀ t ∈ A, t.index ∈ c) → batchPass (A ++ B) c = batchPass B c := by
  intro A
  induction A with
  | nil => intro B c _; rfl
  | cons t A' ih =>
    intro B c h
    have ht : t.index ∈ c := h t (List.mem_cons_self t A')
    simp only [List.cons_append, batchPass, if_pos ht]
    exact ih B c (fun u hu => h u (List.mem_cons_of_mem t hu))

theorem batchPass_build_par (s : TaskStep) (prev : Option TaskStep) (m : Nat)
    (rest : List TaskStep) (c : List Nat) (h1 : ¬ (m ∈ c))
    (h2 : (stepDeps m s).all (fun d => decide (d ∈ c)) = true)
    (h3 : stepCanPar prev s = true) :
    batchPass (buildTasks prev m (s :: rest)) c =
      ({ step := s, index := m, canRunInParallel := stepCanPar prev s,
         dependencies := stepDeps m s } ::
          (batchPass (buildTasks (some s) (m + 1) rest) (m :: c)).1,
        (batchPass (buildTasks (some s) (m + 1) rest) (m :: c)).2) := by
  simp only [buildTasks]
  simp [batchPass, h1, h2, h3]

theorem batchPass_build_seq (s : TaskStep) (prev : Option TaskStep) (m : Nat)
    (rest : List TaskStep) (c : List Nat) (h1 : ¬ (m ∈ c))
    (h2 : (stepDeps m s).all (fun d => decide (d ∈ c)) = true)
    (h3 : stepCanPar prev s = false) :
    batchPass (buildTasks prev m (s :: rest)) c =
      ([{ step := s, index := m, canRunInParallel := stepCanPar prev s,
          dependencies := stepDeps m s }], m :: c) := by
  simp only [buildTasks]
  simp [batchPass, h1, h2, h3]

theorem batchPass_run : ∀ (rest : List TaskStep) (prev : Option TaskStep) (m : Nat)
    (c : List Nat), (∀ k, k ∈ c ↔ k < m) → rest ≠ [] →
    ∃ b c' prev', 1 ≤ b ∧ b ≤ rest.length ∧
      batchPass (buildTasks prev m rest) c = ((buildTasks prev m rest).take b, c') ∧
      (∀ k, k ∈ c' ↔ k < m + b) ∧ c'.length = c.length + b ∧
      (buildTasks prev m rest).drop b = buildTasks prev' (m + b) (rest.drop b) := by
  intro rest
  induction rest with
  | nil => intro prev m c _ hne; exact absurd rfl hne
  | cons s rest' ih =>
    intro prev m c hc _
    have hnotmem : ¬ (m ∈ c) := fun hm => absurd ((hc m).1 hm) (Nat.lt_irrefl m)
    have hdeps : (stepDeps m s).all (fun d => decide (d ∈ c)) = true := by
      rw [List.all_eq_true]
      intro d hd
      exact decide_eq_true ((hc d).2 (stepDeps_lt m s d hd))
    have hmem1 : ∀ k, k ∈ m :: c ↔ k < m + 1 := by
      intro k
      rw [List.mem_cons, hc k]
      constructor
      · rintro (rfl | hk) <;> omega
      · intro hk
        rcases Nat.lt_succ_iff_lt_or_eq.mp hk with hk | rfl
        · exact Or.inr hk
        · exact Or.inl rfl
    by_cases hpar : stepCanPar prev s = true
    · cases rest' with
      | nil =>
        refine ⟨1, m :: c, some s, le_refl 1, by simp, ?_, hmem1, by simp, ?_⟩
        · rw [batchPass_build_par s prev m [] c hnotmem hdeps hpar]
          simp [buildTasks, batchPass]
        · simp [buildTasks]
      | cons s2 rest'' =>
        obtain ⟨b', c', prev', hb1, hb2, heq, hmem, hlen, hdrop⟩ :=
          ih (some s) (m + 1) (m :: c) hmem1 (by simp)
        refine ⟨b' + 1, c', prev', by omega, ?_, ?_, ?_, ?_, ?_⟩
        · simp only [List.length_cons]
          simp only [List.length_cons] at hb2
          omega
        · rw [batchPass_build_par s prev m (s2 :: rest'') c hnotmem hdeps hpar, heq]
          simp [buildTasks, List.take_succ_cons]
        · intro k
          rw [hmem k]
          constructor <;> omega
        · simp only [List.length_cons] at hlen
          omega
        · have harith : m + (b' + 1) = m + 1 + b' := by omega
          simp only [buildTasks, List.drop_succ_cons] at hdrop ⊢
          rw [harith]
          exact hdrop
    · rw [Bool.not_eq_true] at hpar
      refine ⟨1, m :: c, some s, le_refl 1, by simp, ?_, hmem1, by simp, ?_⟩
      · rw [batchPass_build_seq s prev m rest' c hnotmem hdeps hpar]
        simp [buildTasks]
      · simp [buildTasks]

theorem groupAux_flatten : ∀ (fuel : Nat) (steps : List TaskStep) (m : Nat)
    (c : List Nat) (prev : Option TaskStep) (todo : List TaskStep),
    (buildTasks none 0 steps).drop m = buildTasks prev m todo →
    (∀ k, k ∈ c ↔ k < m) → c.length = m → m + todo.length = steps.length →
    todo.length + 1 ≤ fuel →
    (groupAux fuel (buildTasks none 0 steps) c).flatten = buildTasks prev m todo := by
  intro fuel
  induction fuel with
  | zero => intro steps m c prev todo _ _ _ _ hfuel; omega
  | succ f ihf =>
    intro steps m c prev todo hdrop hc hclen htot hfuel
    have hTlen : (buildTasks none 0 steps).length = steps.length :=
      buildTasks_length none 0 steps
    cases todo with
    | nil =>
      have hnot : ¬ (c.length < (buildTasks none 0 steps).length) := by
        simp only [List.length_nil, Nat.add_zero] at htot
        rw [hclen, hTlen]
        omega
      unfold groupAux
      rw [if_neg hnot]
      simp [buildTasks]
    | cons s rest =>
      have hmlt : c.length < (buildTasks none 0 steps).length := by
        rw [hclen, hTlen]
        simp only [List.length_cons] at htot
        omega
      have hskip : batchPass (buildTasks none 0 steps) c =
          batchPass (buildTasks prev m (s :: rest)) c := by
        conv_lhs => rw [← List.take_append_drop m (buildTasks none 0 steps), hdrop]
        refine batchPass_skip _ _ c (fun t ht => (hc t.index).2 ?_)
        have := buildTasks_take_index steps none 0 m t ht
        omega
      obtain ⟨b, c', prev', hb1, hb2, heq, hmem, hlen, hdropb⟩ :=
        batchPass_run (s :: rest) prev m c hc (by simp)
      have hbtake : (List.take b (buildTasks prev m (s :: rest))).length = b := by
        rw [List.length_take, buildTasks_length]
        simp only [List.length_cons] at hb2 ⊢
        omega
      have hne : (List.take b (buildTasks prev m (s :: rest))).isEmpty = false := by
        rw [List.isEmpty_eq_false]
        intro hnil
        rw [hnil] at hbtake
        simp at hbtake
        omega
      have hdrop2 : (buildTasks none 0 steps).drop (m + b) =
          buildTasks prev' (m + b) (List.drop b (s :: rest)) := by
        rw [← List.drop_drop, hdrop, hdropb]
      have hrec := ihf steps (m + b) c' prev' (List.drop b (s :: rest)) hdrop2 hmem
        (by omega)
        (by
          rw [List.length_drop]
          simp only [List.length_cons] at htot hb2 ⊢
          omega)
        (by
          rw [List.length_drop]
          simp only [List.length_cons] at hfuel hb2 ⊢
          omega)
      unfold groupAux
      rw [if_pos hmlt, hskip, heq]
      simp only [hne, Bool.false_eq_true, if_false, List.flatten_cons]
      rw [hrec]
      conv_rhs => rw [← List.take_append_drop b (buildTasks prev m (s :: rest)), hdropb]

theorem flatten_batches (steps : List TaskStep) :
    (groupIntoBatches (createExecutionPlan steps)).flatten = createExecutionPlan steps := by
  unfold groupIntoBatches createExecutionPlan
  exact groupAux_flatten ((buildTasks none 0 steps).length + 1) steps 0 [] none steps
    (by simp) (by simp) rfl (by omega) (by rw [buildTasks_length])

theorem foldl_setOutcome (f : TaskStep → Except String String) :
    ∀ (rest : List TaskStep) (prev : Option TaskStep) (m : Nat)
    (init : List (Option AgentResult)), m + rest.length ≤ init.length →
    (buildTasks prev m rest).foldl (setOutcome f) init =
      init.take m ++ outcomesOf f m rest ++ init.drop (m + rest.length) := by
  intro rest
  induction rest with
  | nil =>
    intro prev m init h
    simp [buildTasks, outcomesOf, agentsOf]
  | cons s rest' ih =>
    intro prev m init h
    simp only [List.length_cons] at h
    have hm : m < init.length := by omega
    have hstep : (buildTasks prev m (s :: rest')).foldl (setOutcome f) init =
        (buildTasks (some s) (m + 1) rest').foldl (setOutcome f)
          (init.set m (some (mkAgentResult m (f s)))) := by
      simp [buildTasks, setOutcome]
    rw [hstep, ih (some s) (m + 1) (init.set m (some (mkAgentResult m (f s))))
      (by rw [List.length_set]; omega)]
    have hsplit := List.set_eq_take_cons_drop (some (mkAgentResult m (f s))) hm
    rw [hsplit]
    have hlt : (init.take m).length = m := by rw [List.length_take]; omega
    have htake : List.take (m + 1)
        (init.take m ++ some (mkAgentResult m (f s)) :: init.drop (m + 1)) =
        init.take m ++ [some (mkAgentResult m (f s))] := by
      conv_lhs => rw [show m + 1 = (init.take m).length + 1 by rw [hlt]]
      rw [List.take_append]
      simp
    have hdrop : List.drop (m + 1 + rest'.length)
        (init.take m ++ some (mkAgentResult m (f s)) :: init.drop (m + 1)) =
        init.drop (m + (rest'.length + 1)) := by
      conv_lhs => rw [show m + 1 + rest'.length = (init.take m).length + (1 + rest'.length) by
        rw [hlt]; omega]
      rw [List.drop_append]
      rw [show 1 + rest'.length = rest'.length + 1 by omega]
      rw [List.drop_succ_cons, List.drop_drop]
      congr 1
      omega
    rw [htake, hdrop]
    simp [outcomesOf, agentsOf, List.append_assoc]

theorem executeWithAgents_eq (steps : List TaskStep) (f : TaskStep → Except String String) :
    executeWithAgents (createExecutionPlan steps) f = outcomesOf f 0 steps := by
  unfold executeWithAgents
  rw [← List.foldl_flatten, flatten_batches]
  have hlen : (createExecutionPlan steps).length = steps.length := buildTasks_length none 0 steps
  rw [hlen]
  unfold createExecutionPlan
  rw [foldl_setOutcome f steps none 0 (List.replicate steps.length none)
    (by rw [List.length_replicate]; omega)]
  simp

theorem seqOpts_map_some : ∀ (l : List AgentResult), seqOpts (l.map some) = some l := by
  intro l
  induction l with
  | nil => rfl
  | cons r rest ih => simp [seqOpts, ih]

theorem mkAgentResult_success (i : Nat) (e : Except String String) :
    (mkAgentResult i e).success = exceptOk e := by
  cases e <;> rfl

theorem agentsOf_filter_success (f : TaskStep → Except String String) :
    ∀ (steps : List TaskStep) (i : Nat),
    ((agentsOf f i steps).filter (fun r => r.success)).length =
      (steps.filter (fun s => exceptOk (f s))).length := by
  intro steps
  induction steps with
  | nil => intro i; rfl
  | cons s rest ih =>
    intro i
    simp only [agentsOf, List.filter_cons, mkAgentResult_success]
    cases h : exceptOk (f s) <;> simp [ih (i + 1)]

theorem executePlanMain_parts (plan : ExecPlan) (f : TaskStep → Except String String)
    (h : plan.steps.findSome? stepValidityError = none) :
    executePlanMain plan f =
      { success := decide
          (((agentsOf f 0 plan.steps).filter (fun r => r.success)).length =
            plan.steps.length)
        completedSteps :=
          ((agentsOf f 0 plan.steps).filter (fun r => r.success)).length
        totalSteps := plan.steps.length
        results := (agentsOf f 0 plan.steps).map (fun r =>
          if r.success then "✓ " ++ r.result.getD "undefined"
          else "✗ " ++ r.error.getD "undefined")
        warnings := some (checkTaskSafety plan).warnings
        error := none } := by
  unfold executePlanMain
  simp only [h, executeWithAgents_eq, outcomesOf, seqOpts_map_some]

theorem planInvocations_eq (steps : List TaskStep)
    (h : steps.findSome? stepValidityError = none) : planInvocations steps = steps := by
  simp only [planInvocations, h, dispatchedTasks]
  rw [flatten_batches]
  simp [createExecutionPlan, buildTasks_map_step]

/-- Claim C10: the wave partition is computed before any outcome is known and
covers every task exactly once (the flattened batches are exactly the task
list); execution applies the capability provider to every scheduled task
regardless of the outcomes of its dependencies, so a step whose dependency
failed is still executed. -/
theorem scheduler_dispatches_each_step_once (steps : List TaskStep)
    (f : TaskStep → Except String String) :
    dispatchedTasks (createExecutionPlan steps) = createExecutionPlan steps ∧
    (dispatchedTasks (createExecutionPlan steps)).map (fun t => t.step) = steps ∧
    executeWithAgents (createExecutionPlan steps) f = outcomesOf f 0 steps := by
  refine ⟨flatten_batches steps, ?_, executeWithAgents_eq steps f⟩
  unfold dispatchedTasks
  rw [flatten_batches]
  simp [createExecutionPlan, buildTasks_map_step]

/-- Claim C7: in a 3-step plan whose middle step fails (non-Message) while
step 3 has no dependency on step 2, execution continues: 2 of 3 steps
complete, step 3 is still dispatched, and the overall result is a failure. -/
theorem partial_failure_continues (t : String) (r : RiskLevel) (s0 s1 s2 : TaskStep)
    (f : TaskStep → Except String String)
    (hvalid : [s0, s1, s2].findSome? stepValidityError = none)
    (h0 : exceptOk (f s0) = true) (h1 : exceptOk (f s1) = false)
    (h2 : exceptOk (f s2) = true) (hnm : s1.op ≠ Operation.Message)
    (hdep : stepDeps 2 s2 = []) :
    (executePlanMain { task := t, risk := r, steps := [s0, s1, s2] } f).completedSteps = 2 ∧
    (executePlanMain { task := t, risk := r, steps := [s0, s1, s2] } f).totalSteps = 3 ∧
    (executePlanMain { task := t, risk := r, steps := [s0, s1, s2] } f).success = false ∧
    planInvocations [s0, s1, s2] = [s0, s1, s2] := by
  have hp := executePlanMain_parts { task := t, risk := r, steps := [s0, s1, s2] } f hvalid
  rw [hp]
  dsimp only
  have hcount : ((agentsOf f 0 [s0, s1, s2]).filter (fun r => r.success)).length = 2 := by
    simp [agentsOf, List.filter_cons, mkAgentResult_success, h0, h1, h2]
  refine ⟨hcount, rfl, ?_, planInvocations_eq [s0, s1, s2] hvalid⟩
  rw [hcount]
  simp

/-- Claim C7 witness input. -/
theorem partial_failure_continues_witness :
    ([openAppStep, typeStep, brightnessStep].findSome? stepValidityError = none ∧
      exceptOk (failTypeExec openAppStep) = true ∧
      exceptOk (failTypeExec typeStep) = false ∧
      exceptOk (failTypeExec brightnessStep) = true ∧
      typeStep.op ≠ Operation.Message ∧ stepDeps 2 brightnessStep = []) ∧
    ((executePlanMain { task := "demo", risk := RiskLevel.low,
                        steps := [openAppStep, typeStep, brightnessStep] }
        failTypeExec).completedSteps = 2 ∧
    (executePlanMain { task := "demo", risk := RiskLevel.low,
                       steps := [openAppStep, typeStep, brightnessStep] }
        failTypeExec).totalSteps = 3 ∧
    (executePlanMain { task := "demo", risk := RiskLevel.low,
                       steps := [openAppStep, typeStep, brightnessStep] }
        failTypeExec).success = false ∧
    planInvocations [openAppStep, typeStep, brightnessStep] =
      [openAppStep, typeStep, brightnessStep]) :=
  ⟨⟨by decide, by decide, by decide, by decide, by decide, by decide⟩,
    partial_failure_continues "demo" RiskLevel.low openAppStep typeStep brightnessStep
      failTypeExec (by decide) (by decide) (by decide) (by decide) (by decide) (by decide)⟩

/-- Claim C6 counterexample: in the plan `[Message (fails), OpenApp]`, OpenApp
forms the wave after the failed Message, yet it is still dispatched and
executed successfully; only `success = false` holds. -/
theorem message_failure_does_not_abort :
    ((groupIntoBatches (createExecutionPlan [msgStep, openAppStep])).map
      (fun b => b.map (fun t => t.index))) = [[0], [1]] ∧
    exceptOk (failMsgExec msgStep) = false ∧
    (executePlanMain msgOpenExecPlan failMsgExec).results = ["✗ send failed", "✓ done"] ∧
    (executePlanMain msgOpenExecPlan failMsgExec).completedSteps = 1 ∧
    (executePlanMain msgOpenExecPlan failMsgExec).success = false ∧
    planInvocations [msgStep, openAppStep] = [msgStep, openAppStep] := by decide

/-- Claim C6 amended core: a failed Message step does not stop the scheduler —
every step of every wave is still dispatched — and the plan result is a
failure. -/
theorem execution_continues_after_message_failure (t : String) (r : RiskLevel)
    (steps : List TaskStep) (f : TaskStep → Except String String) (s : TaskStep)
    (hvalid : steps.findSome? stepValidityError = none)
    (hmem : s ∈ steps) (hop : s.op = Operation.Message)
    (hfail : exceptOk (f s) = false) :
    (executePlanMain { task := t, risk := r, steps := steps } f).success = false ∧
    planInvocations steps = steps := by
  constructor
  · rw [executePlanMain_parts _ f hvalid]
    dsimp only
    rw [agentsOf_filter_success]
    have hle := List.length_filter_le (fun s => exceptOk (f s)) steps
    have hne : ¬ ((steps.filter (fun s => exceptOk (f s))).length = steps.length) := by
      rw [List.filter_length_eq_length]
      intro hall
      rw [hall s hmem] at hfail
      cases hfail
    simp [hne]
  · exact planInvocations_eq steps hvalid

/-- Claim C6 amended witness input. -/
theorem execution_continues_after_message_failure_witness :
    ([msgStep, openAppStep].findSome? stepValidityError = none ∧
      msgStep ∈ [msgStep, openAppStep] ∧ msgStep.op = Operation.Message ∧
      exceptOk (failMsgExec msgStep) = false) ∧
    ((executePlanMain { task := "notify", risk := RiskLevel.low,
                        steps := [msgStep, openAppStep] }
        failMsgExec).success = false ∧
      planInvocations [msgStep, openAppStep] = [msgStep, openAppStep]) :=
  ⟨⟨by decide, by decide, rfl, by decide⟩,
    execution_continues_after_message_failure "notify" RiskLevel.low
      [msgStep, openAppStep] failMsgExec msgStep (by decide) (by decide) rfl (by decide)⟩

theorem firstStepFailure_not_allowed (st : SecurityState) (ui : String) :
    ∀ (steps : List TaskStep) (r : SecurityResult),
      firstStepFailure st ui steps = some r → r.allowed = false := by
  intro steps
  induction steps with
  | nil => intro r h; simp [firstStepFailure] at h
  | cons s rest ih =>
    intro r h
    unfold firstStepFailure at h
    by_cases hv : (validateStep st s ui).allowed
    · simp only [hv, if_true] at h
      exact ih r h
    · simp only [hv, if_false] at h
      cases h
      simp [Bool.not_eq_true] at hv
      exact hv

/-- Claim C1 amended core: for accepted plans under the default configuration,
`requiresApproval` is decided by the declared plan risk alone. -/
theorem approval_matches_declared_risk (st : SecurityState) (now : Int)
    (plan : TaskPlan) (ui : String) (hcfg : st.config = DEFAULT_CONFIG)
    (hok : (validateTaskPlan st now plan ui).1.allowed = true) :
    (validateTaskPlan st now plan ui).1.requiresApproval =
      some (decide (plan.risk ≠ RiskLevel.low)) := by
  unfold validateTaskPlan at hok ⊢
  by_cases hks : st.killSwitchActive
  · simp [hks] at hok
  · simp only [hks, if_false] at hok ⊢
    by_cases hstr : (strFalsy plan.task || decide (plan.steps = none)) = true
    · simp [hstr] at hok
    · simp only [Bool.not_eq_true] at hstr
      simp only [hstr, Bool.false_eq_true, if_false] at hok ⊢
      by_cases hrl : (checkRateLimit st now).1.allowed
      · simp only [hrl, Bool.not_true, Bool.false_eq_true, if_false] at hok ⊢
        cases hfs : firstStepFailure (checkRateLimit st now).2 ui (plan.steps.getD []) with
        | some r =>
          simp only [hfs] at hok
          have := firstStepFailure_not_allowed _ _ _ _ hfs
          rw [hok] at this
          cases this
        | none =>
          simp only [hfs]
          rw [hcfg]
          cases plan.risk <;> rfl
      · simp only [Bool.not_eq_true] at hrl
        simp [hrl] at hok

/-- Claim C1 witness input. -/
theorem approval_matches_declared_risk_witness :
    freshSecurityState.config = DEFAULT_CONFIG ∧
    (validateTaskPlan freshSecurityState 5 mediumWaitPlan "ok").1.allowed = true ∧
    (validateTaskPlan freshSecurityState 5 mediumWaitPlan "ok").1.requiresApproval =
      some (decide (mediumWaitPlan.risk ≠ RiskLevel.low)) :=
  ⟨rfl, by decide,
    approval_matches_declared_risk freshSecurityState 5 mediumWaitPlan "ok" rfl (by decide)⟩

/-- Claim C9 amended core: a missing (or empty-string) task or a missing step
list is rejected with the structural reason before any step validation. -/
theorem malformed_plan_rejected (st : SecurityState) (now : Int) (plan : TaskPlan)
    (ui : String) (hks : st.killSwitchActive = false)
    (hmal : strFalsy plan.task = true ∨ plan.steps = none) :
    (validateTaskPlan st now plan ui).1 =
      { allowed := false, reason := some "Invalid task plan structure" } := by
  have hb : (strFalsy plan.task || decide (plan.steps = none)) = true := by
    rcases hmal with h | h
    · simp [h]
    · simp [h]
  simp [validateTaskPlan, hks, hb]

/-- Claim C9 witness input. -/
theorem malformed_plan_rejected_witness :
    freshSecurityState.killSwitchActive = false ∧
    (strFalsy taskMissingPlan.task = true ∨ taskMissingPlan.steps = none) ∧
    (validateTaskPlan freshSecurityState 3 taskMissingPlan "ok").1 =
      { allowed := false, reason := some "Invalid task plan structure" } :=
  ⟨rfl, Or.inl rfl,
    malformed_plan_rejected freshSecurityState 3 taskMissingPlan "ok" rfl (Or.inl rfl)⟩
